import Mathlib

/-!
Verification development for the archiving utility in `src/LP1.py`.

The Python program is shallow-embedded below:

* byte strings are `List Nat`;
* file names are `String`; paths relative to a directory root are lists of
  path components (`List String`);
* a source path (the first argument of `archive`, respectively the archive
  path of `extract`) is a `SrcState`: missing, a single file, or a directory
  whose recursive walk (`os.walk`) yields a fixed list of relative paths with
  contents, in walk order;
* the external codec libraries (`bz2`, `compression.zstd`) and the external
  `tarfile` container library are parameters of the model: a stateful
  streaming compressor/decompressor for zstd, one-shot functions for bz2, and
  a serializer/parser pair for tar streams.  Theorems assume only the
  round-trip / streaming laws these libraries are relied upon for;
* `print` / `sys.stdout` effects are modelled as explicit traces: progress
  bar renderings as lists of `(current, total)` pairs, stderr messages as
  lists of `ErrKind` values (one per error `print` site of the source);
* Python exceptions are modelled with `Except Unit`: the `try`/`except`
  blocks of `archive` and `extract` are explicit catch points, and a raise
  point that is *not* surrounded by a handler surfaces as `Except.error`.
-/

namespace LP1

/-- Byte strings (`bytes` values of the Python source). -/
abbrev Bytes := List Nat

/-! ### Name handling: `str.lower`, `str.endswith`, `Path.stem` -/

/-- Model of `name.lower()` (line 119 / line 217).  `Char.toLower` is the
ASCII lowering, which matches Python's `str.lower` on the ASCII names the
format suffixes are made of. -/
def pyLower (s : String) : String := String.mk (s.data.map Char.toLower)

/-- Model of `name.endswith(suf)` for a single suffix. -/
def pyEndsWith (s suf : String) : Bool := suf.data.isSuffixOf s.data

/-- Model of `pathlib.PurePath.stem` (line 279, `archive_path.stem`): the
final component without its last suffix; a dot at index 0 does not start a
suffix. -/
def pyStem (s : String) : String :=
  match s.data.reverse.dropWhile (fun c => c ≠ '.') with
  | [] => s
  | _ :: rest => if rest = [] then s else String.mk rest.reverse

/-! ### Format dispatch (lines 119-135 of `archive`, 217-233 of `extract`) -/

inductive Container
  | tar
  | single
deriving DecidableEq

inductive Codec
  | zst
  | bz2
deriving DecidableEq

/-- The suffix checks shared verbatim by `archive` (lines 121-135) and
`extract` (lines 219-233), applied to the already lower-cased name:
`endswith(('.tar.zst', '.tar.bz2'))` then nested `.tar.zst` check, then
`.zst`, then `.bz2`, else the unsupported-format error (`none`). -/
def formatOf (nameLower : String) : Option (Container × Codec) :=
  if pyEndsWith nameLower ".tar.zst" || pyEndsWith nameLower ".tar.bz2" then
    if pyEndsWith nameLower ".tar.zst" then some (.tar, .zst) else some (.tar, .bz2)
  else if pyEndsWith nameLower ".zst" then some (.single, .zst)
  else if pyEndsWith nameLower ".bz2" then some (.single, .bz2)
  else none

/-- Format dispatch of `archive`: `dst_name = dst.name.lower()` (line 119)
followed by the suffix checks. -/
def archiveDispatch (dstName : String) : Option (Container × Codec) :=
  formatOf (pyLower dstName)

/-- Format dispatch of `extract`: `archive_name = archive_path.name.lower()`
(line 217) followed by the suffix checks. -/
def extractDispatch (arcName : String) : Option (Container × Codec) :=
  formatOf (pyLower arcName)

/-- Modelled from the spec's words (§4.1 / §9): the dispatcher as "a small
ordered table of (suffix, container, codec) tuples checked
longest-suffix-first". -/
def dispatchTable : List (String × Container × Codec) :=
  [(".tar.zst", Container.tar, Codec.zst),
   (".tar.bz2", Container.tar, Codec.bz2),
   (".zst", Container.single, Codec.zst),
   (".bz2", Container.single, Codec.bz2)]

/-- Modelled from the spec's words (§4.1): return the first table entry whose
suffix matches the (lower-cased) name, an error (`none`) otherwise. -/
def dispatchSpec (name : String) : Option (Container × Codec) :=
  (dispatchTable.find? (fun t => pyEndsWith (pyLower name) t.1)).map (fun t => t.2)

/-! ### Progress reporting (`print_progress`, lines 13-20) -/

/-- Model of the rendered fraction of `print_progress`: `None` when the
`total <= 0` guard returns without printing (line 14-15), otherwise the
clamped fraction `min(cur / total, 1.0)` (line 16).  The exact rational is
used; the clamp `min(_, 1.0)` is exact in floating point as well. -/
def progressFraction (cur total : Int) : Option ℚ :=
  if total ≤ 0 then none else some (min ((cur : ℚ) / (total : ℚ)) 1)

/-- The `(cur, total)` pairs a single `print_progress` call renders: nothing
when `total <= 0`, the pair itself otherwise.  Operation models below
concatenate these into the operation's progress trace. -/
def progTrace (cur total : Int) : List (Int × Int) :=
  if total ≤ 0 then [] else [(cur, total)]

/-! ### Codec adapter (lines 44-109)

The external codec objects are parameters.  `zstd.ZstdCompressor` is a
stateful `compress` plus a final `flush`; `zstd.ZstdDecompressor` is a
stateful `decompress`; `bz2.compress` / `bz2.decompress` are one-shot
functions. -/

/-- A stateful streaming stage of an external codec object: an initial state
and a `step` consuming a byte string, yielding the next state and the bytes
produced. -/
structure StepFn (σ : Type) where
  init : σ
  step : σ → Bytes → σ × Bytes

/-- An external `zstd.ZstdCompressor`: streaming `compress` plus `flush`. -/
structure ZComp (σ : Type) extends StepFn σ where
  flush : σ → Bytes

/-- Fuel-driven worker for `chunksOf`; the fuel is an upper bound on the
input length, so the recursion is structural. -/
def chunksOfGo (n : Nat) : Nat → Bytes → List Bytes
  | _, [] => []
  | 0, _ :: _ => []
  | fuel + 1, x :: xs =>
    if n = 0 then []
    else (x :: xs).take n :: chunksOfGo n fuel ((x :: xs).drop n)

/-- The fixed window `chunk_size = 8192` splitting of
`for i in range(0, total, chunk_size): chunk = data[i:i + chunk_size]`
(lines 52-53 and 87-88): consecutive windows of `n` bytes. -/
def chunksOf (n : Nat) (l : Bytes) : List Bytes :=
  chunksOfGo n l.length l

theorem chunksOfGo_irrel (n : Nat) :
    ∀ (f1 f2 : Nat) (l : Bytes), l.length ≤ f1 → l.length ≤ f2 →
      chunksOfGo n f1 l = chunksOfGo n f2 l := by
  intro f1
  induction f1 with
  | zero =>
    intro f2 l h1 _
    cases l with
    | nil => cases f2 <;> rfl
    | cons x xs => simp at h1
  | succ g1 ih =>
    intro f2 l h1 h2
    cases l with
    | nil => cases f2 <;> rfl
    | cons x xs =>
      cases f2 with
      | zero => simp at h2
      | succ g2 =>
        simp only [chunksOfGo]
        by_cases hn : n = 0
        · simp [hn]
        · simp only [hn, if_false]
          have hlen : ((x :: xs).drop n).length ≤ g1 := by
            simp only [List.length_drop, List.length_cons]
            simp only [List.length_cons] at h1
            omega
          have hlen2 : ((x :: xs).drop n).length ≤ g2 := by
            simp only [List.length_drop, List.length_cons]
            simp only [List.length_cons] at h2
            omega
          rw [ih g2 ((x :: xs).drop n) hlen hlen2]

/-- Unfolding equation of `chunksOf`. -/
theorem chunksOf_eq (n : Nat) (l : Bytes) :
    chunksOf n l = if l = [] ∨ n = 0 then [] else l.take n :: chunksOf n (l.drop n) := by
  cases l with
  | nil => simp [chunksOf, chunksOfGo]
  | cons x xs =>
    by_cases hn : n = 0
    · simp [chunksOf, chunksOfGo, hn]
    · have hcons : (x :: xs) ≠ [] := by simp
      simp only [chunksOf, List.length_cons, chunksOfGo, hn, if_false, hcons,
        false_or, or_false]
      have hlen : ((x :: xs).drop n).length ≤ xs.length := by
        simp only [List.length_drop, List.length_cons]
        omega
      rw [chunksOfGo_irrel n xs.length ((x :: xs).drop n).length ((x :: xs).drop n)
        hlen (Nat.le_refl _)]

/-- Feeding a list of chunks through a stateful stage, concatenating the
output bytes (the `compressed += compressor.compress(chunk)` /
`decompressed += decompressor.decompress(chunk)` accumulation of the chunk
loops). -/
def feedAll (F : StepFn σ) : σ → List Bytes → σ × Bytes
  | s, [] => (s, [])
  | s, c :: cs =>
    let p := F.step s c
    let q := feedAll F p.1 cs
    (q.1, p.2 ++ q.2)

/-- The progress renderings of a chunk loop: one
`print_progress(min(i + chunk_size, total), total)` per chunk, where
`min(i + chunk_size, total)` equals the running count of bytes consumed so
far (`done` plus the chunk's length). -/
def feedTrace (total : Nat) : Nat → List Bytes → List (Int × Int)
  | _, [] => []
  | done, c :: cs =>
    progTrace ((done + c.length : Nat) : Int) (total : Int) ++
      feedTrace total (done + c.length) cs

/-- The full rendered trace of a progress-mode codec chunk loop over `data`:
the per-chunk renderings followed by the extra `print_progress(total, total)`
after the loop (line 58, line 92). -/
def codecChunkTrace (data : Bytes) : List (Int × Int) :=
  feedTrace data.length 0 (chunksOf 8192 data) ++
    progTrace (data.length : Int) (data.length : Int)

/-- Compressed bytes produced by `compress_with_zstd` (lines 44-63): in
progress mode the 8192-byte chunk loop followed by `compressor.flush()`, in
plain mode `compressor.compress(data) + compressor.flush()`. -/
def compressWithZstd (Z : ZComp σ) (prog : Bool) (data : Bytes) : Bytes :=
  if prog then
    let p := feedAll Z.toStepFn Z.init (chunksOf 8192 data)
    p.2 ++ Z.flush p.1
  else
    let p := Z.step Z.init data
    p.2 ++ Z.flush p.1

/-- Compressed bytes produced by `compress_with_bz2` (lines 66-75): both the
progress and the plain branch call the one-shot `bz2.compress(data)`. -/
def compressWithBz2 (bz2c : Bytes → Bytes) (prog : Bool) (data : Bytes) : Bytes :=
  if prog then bz2c data else bz2c data

/-- Decompressed bytes produced by `decompress_zstd` (lines 78-96): in
progress mode the 8192-byte chunk loop over the compressed input (no flush
call in the source), in plain mode a single `decompressor.decompress(data)`. -/
def decompressZstd (D : StepFn σ) (prog : Bool) (data : Bytes) : Bytes :=
  if prog then (feedAll D D.init (chunksOf 8192 data)).2
  else (D.step D.init data).2

/-- Decompressed bytes produced by `decompress_bz2` (lines 99-109): both
branches call the one-shot `bz2.decompress(data)`. -/
def decompressBz2 (bz2d : Bytes → Bytes) (prog : Bool) (data : Bytes) : Bytes :=
  if prog then bz2d data else bz2d data

/-! ### Sources, tar entries and the external tar library -/

/-- A tar file entry: archive-relative path (as components) and contents.
`tarfile` additionally emits directory entries for directories it adds
recursively; those create directories on extraction but no files, so only
file entries are modelled. -/
abbrev Entry := List String × Bytes

/-- The state of the source path handed to `archive` (respectively of the
archive path handed to `extract`, via `Option Bytes`): missing, a regular
file, or a directory whose recursive `os.walk` yields the given relative
paths and contents, in walk order. -/
inductive SrcState
  | missing
  | file (name : String) (content : Bytes)
  | dir (name : String) (files : List Entry)
deriving DecidableEq

/-- `src.is_dir()` on the modelled source. -/
def SrcState.isDir : SrcState → Bool
  | .dir _ _ => true
  | _ => false

/-- `count_files` (lines 23-29): 1 for a file, the number of walked files for
a directory. -/
def countFiles : SrcState → Nat
  | .missing => 0
  | .file _ _ => 1
  | .dir _ files => files.length

/-- The entry list of `create_tar_archive` (lines 32-41): a single file is
added as its base name (`arcname=src.name`); a directory source contributes
one entry per walked file, named `file_path.relative_to(src)` — the root
name is not part of any entry path. -/
def createTarEntries : SrcState → List Entry
  | .missing => []
  | .file nm c => [([nm], c)]
  | .dir _ files => files

/-- The entry list of `tar.add(src, arcname=src.name)` as used by the
`.tar.bz2` branch of `archive` (lines 161-167): a single file is added as its
base name, but a directory is added recursively under `arcname=src.name`, so
every file entry carries the root directory's name as its leading
component. -/
def tarAddRootEntries : SrcState → List Entry
  | .missing => []
  | .file nm c => [([nm], c)]
  | .dir nm files => files.map (fun e => (nm :: e.1, e.2))

/-- The source's files at their source-relative paths: what a byte-for-byte
round-trip at identical relative paths has to reproduce. -/
def sourceFiles : SrcState → List Entry
  | .missing => []
  | .file nm c => [([nm], c)]
  | .dir _ files => files

/-- The external collaborators of the orchestrator: the zstd compressor and
decompressor objects, the one-shot bz2 functions, and the external `tarfile`
serializer (entry list to tar byte stream) and parser (tar byte stream to
member list, `none` when `tarfile.open` raises on malformed input). -/
structure Ext (σc σd : Type) where
  zc : ZComp σc
  zd : StepFn σd
  bz2c : Bytes → Bytes
  bz2d : Bytes → Bytes
  tarSer : List Entry → Bytes
  tarParse : Bytes → Option (List Entry)

/-! ### The orchestrator operations `archive` (lines 112-207) and `extract`
(lines 210-304) -/

/-- One stderr `print(..., file=sys.stderr)` site of the source, per the
spec's error taxonomy: lines 116/214 (`SourceNotFound`), 134/232
(`UnsupportedFormat`), 138 (`DirectoryRequiresTar`), and 206/303 (the
`except Exception` handlers). -/
inductive ErrKind
  | sourceNotFound
  | unsupportedFormat
  | dirRequiresTar
  | caught
deriving DecidableEq

/-- Observable outcome of one `archive` call: the bytes written to the
destination (if any), the returned value (`some ()` when a benchmark elapsed
time is returned, `none` for Python's `None`), the rendered progress trace,
and the stderr messages. -/
structure AOut where
  written : Option Bytes
  ret : Option Unit
  trace : List (Int × Int)
  errs : List ErrKind
deriving DecidableEq

/-- Observable outcome of one `extract` call: the files written under the
destination directory (destination-relative path and contents), the returned
value, the rendered progress trace, and the stderr messages. -/
structure EOut where
  files : List Entry
  ret : Option Unit
  trace : List (Int × Int)
  errs : List ErrKind
deriving DecidableEq

/-- Model of `archive(src, dst, progress, benchmark)` (lines 112-207).
`writeOk` models whether writing the destination file succeeds; when it is
`false` the write raises and the `except Exception` handler of lines 205-207
catches.  All raise points of the body lie inside the `try` of lines
141-204, so the model is total: no `archive` call propagates an exception. -/
def archiveRun (E : Ext σc σd) (src : SrcState) (dstName : String)
    (prog bench writeOk : Bool) : AOut :=
  -- lines 115-117: source existence check
  if src = SrcState.missing then ⟨none, none, [], [.sourceNotFound]⟩
  else
    -- lines 119-135: format dispatch on the lower-cased destination name
    match archiveDispatch dstName with
    | none => ⟨none, none, [], [.unsupportedFormat]⟩
    | some (container, codec) =>
      -- lines 137-139: directory sources require a tar container
      if src.isDir ∧ container ≠ Container.tar then
        ⟨none, none, [], [.dirRequiresTar]⟩
      else
        -- lines 141-203: the try block
        let retv : Option Unit := if bench then some () else none
        match container, codec with
        | Container.tar, Codec.zst =>
          -- lines 142-157: build the in-memory tar stream, then zstd
          let data := E.tarSer (createTarEntries src)
          let trA := if prog then
              progTrace (countFiles src : Int) (countFiles src : Int) else []
          let out := compressWithZstd E.zc prog data
          let trC := if prog then codecChunkTrace data else []
          if writeOk then ⟨some out, retv, trA ++ trC, []⟩
          else ⟨none, none, trA ++ trC, [.caught]⟩
        | Container.tar, Codec.bz2 =>
          -- lines 142-154 build a tar buffer that this branch then discards;
          -- lines 159-167 write `tarfile.open(dst, "w:bz2")` with
          -- `tar.add(src, arcname=src.name)` directly to the destination
          let trA := if prog then
              progTrace (countFiles src : Int) (countFiles src : Int) else []
          let out := E.bz2c (E.tarSer (tarAddRootEntries src))
          let pre := if prog then progTrace 0 1 else []
          if writeOk then
            ⟨some out, retv, trA ++ pre ++ (if prog then progTrace 1 1 else []), []⟩
          else ⟨none, none, trA ++ pre, [.caught]⟩
        | Container.single, c =>
          -- lines 169-184: read the single file, then the chosen codec
          let content := match src with
            | .file _ cBytes => cBytes
            | _ => []
          let total := content.length
          let trR := if prog then
              progTrace 0 (total : Int) ++ progTrace (total : Int) (total : Int)
            else []
          let out := if c = Codec.zst then compressWithZstd E.zc prog content
            else compressWithBz2 E.bz2c prog content
          let trC := if prog then
              (if c = Codec.zst then codecChunkTrace content
               else progTrace (total : Int) (total : Int))
            else []
          if writeOk then ⟨some out, retv, trR ++ trC, []⟩
          else ⟨none, none, trR ++ trC, [.caught]⟩

/-- The per-member progress renderings of the `.tar.bz2` extraction loop
(lines 246-250): `print_progress(i + 1, len(members))`. -/
def memberTraceBz2 (n : Nat) : List (Int × Int) :=
  ((List.range n).map (fun i => progTrace ((i + 1 : Nat) : Int) (n : Int))).flatten

/-- The per-member progress renderings of the `.tar.zst` extraction loop
(lines 267-271): `print_progress(i + 1 + len(members), len(members) * 2)`. -/
def memberTraceZst (n : Nat) : List (Int × Int) :=
  ((List.range n).map
    (fun i => progTrace ((i + 1 + n : Nat) : Int) ((2 * n : Nat) : Int))).flatten

/-- Model of `extract(archive_path, dest_dir, progress, benchmark)` (lines
210-304).  `arc` is the archive path's state (`none` when it does not exist);
`mkdirOk` models whether `dest_dir.mkdir(parents=True, exist_ok=True)` (line
235) succeeds.  The `mkdir` call sits *before* the `try` of lines 237-304, so
its failure propagates out of `extract` (`Except.error ()`); every raise
point after it is caught by the handler of lines 302-304. -/
def extractRun (E : Ext σc σd) (arc : Option Bytes) (arcName : String)
    (prog bench mkdirOk : Bool) : Except Unit EOut :=
  -- lines 213-215: archive existence check
  match arc with
  | none => .ok ⟨[], none, [], [.sourceNotFound]⟩
  | some bytes =>
    -- lines 217-233: format dispatch on the lower-cased archive name
    match extractDispatch arcName with
    | none => .ok ⟨[], none, [], [.unsupportedFormat]⟩
    | some (container, codec) =>
      -- line 235: destination directory creation, outside the try block
      if ¬ mkdirOk then .error ()
      else
        -- lines 237-300: the try block
        let retv : Option Unit := if bench then some () else none
        match container, codec with
        | Container.tar, Codec.bz2 =>
          -- lines 239-252
          let pre := if prog then progTrace 0 1 else []
          match E.tarParse (E.bz2d bytes) with
          | none => .ok ⟨[], none, pre, [.caught]⟩
          | some members =>
            .ok ⟨members, retv,
              pre ++ (if prog then memberTraceBz2 members.length else []), []⟩
        | Container.tar, Codec.zst =>
          -- lines 254-273
          let pre := if prog then progTrace 0 1 else []
          let dec := decompressZstd E.zd prog bytes
          let trD := if prog then codecChunkTrace bytes else []
          let mid := if prog then progTrace 1 2 else []
          match E.tarParse dec with
          | none => .ok ⟨[], none, pre ++ trD ++ mid, [.caught]⟩
          | some members =>
            .ok ⟨members, retv,
              pre ++ trD ++ mid ++
                (if prog then memberTraceZst members.length else []), []⟩
        | Container.single, c =>
          -- lines 275-291: decompress and write a single file named by
          -- stripping the last suffix from the archive's base name
          let pre := if prog then progTrace 0 1 else []
          let data := if c = Codec.zst then decompressZstd E.zd prog bytes
            else decompressBz2 E.bz2d prog bytes
          let trD := if prog then
              (if c = Codec.zst then codecChunkTrace bytes
               else progTrace (bytes.length : Int) (bytes.length : Int))
            else []
          let post := if prog then progTrace 1 1 else []
          .ok ⟨[([pyStem arcName], data)], retv, pre ++ trD ++ post, []⟩

/-! ### Helpers used to state the claims -/

/-- The files extracted by a non-raising `extract` call (empty for a
propagated exception). -/
def efiles : Except Unit EOut → List Entry
  | .ok o => o.files
  | .error _ => []

/-- The stderr messages of a non-raising `extract` call. -/
def eerrs : Except Unit EOut → List ErrKind
  | .ok o => o.errs
  | .error _ => []

/-- The returned value of a non-raising `extract` call. -/
def eret : Except Unit EOut → Option Unit
  | .ok o => o.ret
  | .error _ => none

/-- Whether an `extract` call returned normally rather than propagating an
exception. -/
def isOkE : Except Unit EOut → Bool
  | .ok _ => true
  | .error _ => false

/-- The rendered progress trace of a non-raising `extract` call. -/
def etrace : Except Unit EOut → List (Int × Int)
  | .ok o => o.trace
  | .error _ => []

/-- Archive a source and extract the bytes written, yielding the extracted
files (empty when the archive step wrote nothing). -/
def roundTrip (E : Ext σc σd) (src : SrcState) (dstName arcName : String)
    (p1 b1 p2 b2 : Bool) : List Entry :=
  match (archiveRun E src dstName p1 b1 true).written with
  | none => []
  | some w => efiles (extractRun E (some w) arcName p2 b2 true)

/-- A rendered progress trace is monotonically non-decreasing in its current
count. -/
def curNonDec : List (Int × Int) → Bool
  | [] => true
  | [_] => true
  | a :: b :: t => decide (a.1 ≤ b.1) && curNonDec (b :: t)

/-- Whether the final rendered value of a trace equals its total. -/
def lastHitsTotal : List (Int × Int) → Bool
  | [] => true
  | t => match t.getLast? with
    | some p => decide (p.1 = p.2)
    | none => true

/-! ### A concrete instance of the external libraries

Used by witnesses and counterexamples: identity codecs, and an executable
length-prefixed serializer/parser pair for tar entry lists. -/

/-- An identity streaming compressor: a lawful stand-in for the external
`ZstdCompressor` object. -/
def idZComp : ZComp Unit where
  init := ()
  step := fun s d => (s, d)
  flush := fun _ => []

/-- An identity streaming decompressor: a lawful stand-in for the external
`ZstdDecompressor` object. -/
def idZDecomp : StepFn Unit where
  init := ()
  step := fun s d => (s, d)

/-- Length-prefixed encoding of a string. -/
def encStr (s : String) : List Nat :=
  s.data.length :: s.data.map Char.toNat

/-- Length-prefixed encoding of one tar entry. -/
def encEntry (e : Entry) : List Nat :=
  (e.1.length :: (e.1.map encStr).flatten) ++ (e.2.length :: e.2)

/-- Length-prefixed encoding of a tar entry list: a concrete injective
serialization standing in for the external tar layout. -/
def encTar (es : List Entry) : List Nat :=
  es.length :: (es.map encEntry).flatten

/-- Read `n` values off the front of a list. -/
def readN : Nat → List Nat → Option (List Nat × List Nat)
  | 0, l => some ([], l)
  | _ + 1, [] => none
  | n + 1, x :: l => (readN n l).map (fun p => (x :: p.1, p.2))

/-- Read one length-prefixed string. -/
def readStr : List Nat → Option (String × List Nat)
  | [] => none
  | n :: r => (readN n r).map (fun p => (String.mk (p.1.map Char.ofNat), p.2))

/-- Read `k` length-prefixed strings. -/
def readStrs : Nat → List Nat → Option (List String × List Nat)
  | 0, l => some ([], l)
  | k + 1, l => do
    let (s, r) ← readStr l
    let (ss, r2) ← readStrs k r
    pure (s :: ss, r2)

/-- Read one encoded tar entry. -/
def readEntry : List Nat → Option (Entry × List Nat)
  | [] => none
  | k :: r => do
    let (p, r2) ← readStrs k r
    match r2 with
    | [] => none
    | n :: r3 => do
      let (c, r4) ← readN n r3
      pure ((p, c), r4)

/-- Read `k` encoded tar entries. -/
def readEntries : Nat → List Nat → Option (List Entry × List Nat)
  | 0, l => some ([], l)
  | k + 1, l => do
    let (e, r) ← readEntry l
    let (es, r2) ← readEntries k r
    pure (e :: es, r2)

/-- Decoder matching `encTar`: a concrete executable parser standing in for
the external tar reader. -/
def decTar : List Nat → Option (List Entry)
  | [] => none
  | k :: r =>
    match readEntries k r with
    | some (es, []) => some es
    | _ => none

/-- The concrete external-library bundle: identity codecs and the
length-prefixed tar serialization. -/
def idExt : Ext Unit Unit where
  zc := idZComp
  zd := idZDecomp
  bz2c := id
  bz2d := id
  tarSer := encTar
  tarParse := decTar

/-! ## Theorems -/

/-! ### Helper lemmas -/

theorem toLower_def (c : Char) :
    c.toLower = if c.toNat ≥ 65 ∧ c.toNat ≤ 90 then Char.ofNat (c.toNat + 32) else c := rfl

theorem toLower_toLower (c : Char) : c.toLower.toLower = c.toLower := by
  rw [toLower_def c]
  by_cases h : c.toNat ≥ 65 ∧ c.toNat ≤ 90
  · rw [if_pos h]
    have hv : (c.toNat + 32).isValidChar := Or.inl (by omega)
    have ht : (Char.ofNat (c.toNat + 32)).toNat = c.toNat + 32 := by
      rw [Char.ofNat, dif_pos hv]
      rfl
    rw [toLower_def, if_neg (by omega)]
  · rw [if_neg h, toLower_def c, if_neg h]

theorem pyLower_idem (s : String) : pyLower (pyLower s) = pyLower s := by
  simp only [pyLower, List.map_map]
  congr 1
  apply List.map_congr_left
  intro a _
  exact toLower_toLower a

/-! ### C3: format dispatch -/

/-- C3: for every file name, the format dispatcher (applied by `archive` to
the destination name and by `extract` to the archive name) agrees with the
longest-suffix-first table: `.tar.zst` → (tar, zstd), `.tar.bz2` →
(tar, bz2), then `.zst` → (raw, zstd), `.bz2` → (raw, bz2), and any other
name is an `UnsupportedFormat` error (`none`). -/
theorem c3_dispatch (name : String) :
    archiveDispatch name = dispatchSpec name ∧
      extractDispatch name = dispatchSpec name := by
  constructor <;>
  · simp only [archiveDispatch, extractDispatch, dispatchSpec, formatOf, dispatchTable]
    rcases h1 : pyEndsWith (pyLower name) ".tar.zst" <;>
      rcases h2 : pyEndsWith (pyLower name) ".tar.bz2" <;>
        rcases h3 : pyEndsWith (pyLower name) ".zst" <;>
          rcases h4 : pyEndsWith (pyLower name) ".bz2" <;>
            simp [h1, h2, h3, h4, List.find?]

/-! ### C9: case-insensitive dispatch -/

/-- C9: suffix dispatch is case-insensitive for `archive` as well as for
`extract`: the name is lower-cased before the suffix checks, so every name
selects the same (container, codec) pair as its lower-case spelling. -/
theorem c9_case_insensitive (name : String) :
    archiveDispatch name = archiveDispatch (pyLower name) ∧
      extractDispatch name = extractDispatch (pyLower name) := by
  constructor <;>
    simp only [archiveDispatch, extractDispatch, pyLower_idem]

/-! ### C10: progress renderer safety -/

/-- C10: for every call to the progress renderer, if `total ≤ 0` it returns
without printing anything (no division happens), and the displayed fraction,
when one is rendered, is clamped to never exceed 100% — in particular it is
exactly 100% whenever `current` exceeds `total`. -/
theorem c10_progress_safety (cur total : Int) :
    (total ≤ 0 → progressFraction cur total = none) ∧
      (0 < total → total < cur → progressFraction cur total = some 1) ∧
      (∀ q ∈ progressFraction cur total, q ≤ 1) := by
  refine ⟨fun h => by simp [progressFraction, h], fun h1 h2 => ?_, fun q hq => ?_⟩
  · have hT : ¬ total ≤ 0 := by omega
    have hq : (1 : ℚ) ≤ (cur : ℚ) / (total : ℚ) := by
      rw [le_div_iff₀ (by exact_mod_cast h1)]
      simp only [one_mul]
      exact_mod_cast le_of_lt h2
    simp [progressFraction, hT, min_eq_right hq]
  · simp only [progressFraction] at hq
    rcases le_or_lt total 0 with h | h
    · simp [h] at hq
    · have hT : ¬ total ≤ 0 := by omega
      simp only [hT, if_false, Option.mem_def, Option.some.injEq] at hq
      subst hq
      exact min_le_right _ _

/-- Witness for C10 at concrete inputs: `total = 0` renders nothing and
`cur = 7 > total = 3` renders exactly 100%. -/
theorem c10_progress_safety_witness :
    progressFraction 5 0 = none ∧ progressFraction 7 3 = some 1 :=
  ⟨(c10_progress_safety 5 0).1 (by norm_num),
   (c10_progress_safety 7 3).2.1 (by norm_num) (by norm_num)⟩

/-! ### C8: missing source -/

/-- C8: for every `archive` call and every `extract` call whose source path
does not exist, the operation reports `SourceNotFound` on the error stream,
returns no result (`None`), and produces no output file. -/
theorem c8_source_not_found (σc σd : Type) (E : Ext σc σd) (dstName arcName : String)
    (p1 b1 w p2 b2 m : Bool) :
    archiveRun E SrcState.missing dstName p1 b1 w =
        ⟨none, none, [], [ErrKind.sourceNotFound]⟩ ∧
      extractRun E none arcName p2 b2 m =
        .ok ⟨[], none, [], [ErrKind.sourceNotFound]⟩ := by
  constructor
  · simp [archiveRun]
  · rfl

/-! ### C7: directory source with a raw destination suffix -/

/-- C7: for every `archive` call whose source is a directory and whose
destination name dispatches to a raw (non-tar) container, the operation
reports `DirectoryRequiresTar`, returns no result, and writes no output
file. -/
theorem c7_directory_requires_tar (σc σd : Type) (E : Ext σc σd)
    (nm : String) (files : List Entry) (dstName : String) (c : Codec)
    (p b w : Bool) (h : archiveDispatch dstName = some (Container.single, c)) :
    archiveRun E (SrcState.dir nm files) dstName p b w =
      ⟨none, none, [], [ErrKind.dirRequiresTar]⟩ := by
  simp [archiveRun, h, SrcState.isDir]

/-- Witness for C7: archiving a directory to a `.zst` destination. -/
theorem c7_directory_requires_tar_witness :
    archiveRun idExt (SrcState.dir "d" [(["a"], [7])]) "out.zst" false false true =
      ⟨none, none, [], [ErrKind.dirRequiresTar]⟩ :=
  c7_directory_requires_tar Unit Unit idExt "d" [(["a"], [7])] "out.zst"
    Codec.zst false false true (by decide)

/-! ### C2: chunked vs. non-chunked compression -/

/-- Feeding the 8192-byte windows of `data` one by one through a stateful
stage that satisfies the streaming laws (splitting the input across two
`step` calls concatenates the outputs, and an empty `step` is a no-op)
produces the same state and output as feeding `data` in one call. -/
theorem feedAll_chunksOf (F : StepFn σ)
    (hstep : ∀ s a b, F.step s (a ++ b) =
      ((F.step (F.step s a).1 b).1, (F.step s a).2 ++ (F.step (F.step s a).1 b).2))
    (hnil : ∀ s, F.step s [] = (s, []))
    (n : Nat) (hn : 0 < n) (l : Bytes) (s : σ) :
    feedAll F s (chunksOf n l) = F.step s l := by
  by_cases hl : l = []
  · subst hl
    rw [chunksOf_eq]
    simp [feedAll, hnil]
  · rw [chunksOf_eq, if_neg (by push_neg; exact ⟨hl, by omega⟩)]
    have ih := feedAll_chunksOf F hstep hnil n hn (l.drop n) (F.step s (l.take n)).1
    simp only [feedAll]
    rw [ih]
    have h2 := hstep s (l.take n) (l.drop n)
    rw [List.take_append_drop] at h2
    exact h2.symm
termination_by l.length
decreasing_by
  have hp : 0 < l.length := List.length_pos.mpr hl
  simp [List.length_drop]
  omega

/-- C2: for every input byte string and each codec, the compressed bytes of
the progress-mode path equal those of the plain path.  For zstd the
progress path feeds 8192-byte windows to the stateful compressor and
finalizes with `flush`; equality holds under the streaming laws the external
`ZstdCompressor` provides.  For bz2 both paths invoke the same one-shot
`bz2.compress`, so their outputs coincide. -/
theorem c2_chunked_eq (σ : Type) (Z : ZComp σ) (bz2c : Bytes → Bytes) (data : Bytes)
    (hstep : ∀ s a b, Z.step s (a ++ b) =
      ((Z.step (Z.step s a).1 b).1, (Z.step s a).2 ++ (Z.step (Z.step s a).1 b).2))
    (hnil : ∀ s, Z.step s [] = (s, [])) :
    compressWithZstd Z true data = compressWithZstd Z false data ∧
      compressWithBz2 bz2c true data = compressWithBz2 bz2c false data := by
  constructor
  · simp only [compressWithZstd, if_true, if_false]
    rw [feedAll_chunksOf Z.toStepFn hstep hnil 8192 (by norm_num) data Z.init]
    simp
  · simp [compressWithBz2]

/-- Witness for C2: the identity streaming compressor satisfies the
laws, and both equalities hold on the concrete input `[1, 2, 3]`. -/
theorem c2_chunked_eq_witness :
    compressWithZstd idZComp true [1, 2, 3] = compressWithZstd idZComp false [1, 2, 3] ∧
      compressWithBz2 id true [1, 2, 3] = compressWithBz2 id false [1, 2, 3] :=
  c2_chunked_eq Unit idZComp id [1, 2, 3] (fun _ _ _ => rfl) (fun _ => rfl)

/-! ### C5: exception containment -/

/-- C5 counterexample: the claim "neither operation ever lets an exception
propagate to its caller" is false.  In `extract` the destination-directory
creation (`dest_dir.mkdir(parents=True, exist_ok=True)`, line 235) happens
before the `try` block, so when it raises (e.g. the destination exists as a
regular file) the exception propagates: extracting the existing archive
`a.bz2` with a failing `mkdir` yields an uncaught exception, not `None`. -/
theorem c5_counterexample :
    extractRun idExt (some [1]) "a.bz2" false false false = .error () := rfl

/-- C5 amended: every exception raised inside the `try` blocks of the two
operations (building, compressing, writing, reading, decompressing,
unpacking) is caught, reported on the error stream, and turns the result
into `None` with no output — `archive` in particular never propagates; but
in `extract` the destination-directory creation precedes the `try` block,
and an exception there propagates to the caller. -/
theorem c5_amended (σc σd : Type) (E : Ext σc σd) :
    (∀ src dstName p b container codec, src ≠ SrcState.missing →
      archiveDispatch dstName = some (container, codec) →
      ¬(src.isDir ∧ container ≠ Container.tar) →
      (archiveRun E src dstName p b false).written = none ∧
        (archiveRun E src dstName p b false).ret = none ∧
        (archiveRun E src dstName p b false).errs = [ErrKind.caught]) ∧
    (∀ arc arcName p b, isOkE (extractRun E arc arcName p b true) = true) ∧
    (∀ bytes arcName p b fmt, extractDispatch arcName = some fmt →
      extractRun E (some bytes) arcName p b false = .error ()) ∧
    (∀ bytes arcName p b, extractDispatch arcName = some (Container.tar, Codec.bz2) →
      E.tarParse (E.bz2d bytes) = none →
      eerrs (extractRun E (some bytes) arcName p b true) = [ErrKind.caught] ∧
        efiles (extractRun E (some bytes) arcName p b true) = [] ∧
        eret (extractRun E (some bytes) arcName p b true) = none) ∧
    (∀ bytes arcName p b, extractDispatch arcName = some (Container.tar, Codec.zst) →
      E.tarParse (decompressZstd E.zd p bytes) = none →
      eerrs (extractRun E (some bytes) arcName p b true) = [ErrKind.caught] ∧
        efiles (extractRun E (some bytes) arcName p b true) = [] ∧
        eret (extractRun E (some bytes) arcName p b true) = none) := by
  refine ⟨?_, ?_, ?_, ?_, ?_⟩
  · intro src dstName p b container codec h1 h2 h3
    cases container <;> cases codec
    · simp [archiveRun, h1, h2]
    · simp [archiveRun, h1, h2]
    all_goals
      have hD : src.isDir = false := by
        rcases Bool.eq_false_or_eq_true src.isDir with h | h
        · exact absurd ⟨h, by simp⟩ h3
        · exact h
    all_goals simp [archiveRun, h1, h2, hD]
  · intro arc arcName p b
    cases arc with
    | none => rfl
    | some bytes =>
      cases h : extractDispatch arcName with
      | none => simp [extractRun, h, isOkE]
      | some fmt =>
        obtain ⟨cont, cod⟩ := fmt
        cases cont <;> cases cod
        · cases hp : E.tarParse (decompressZstd E.zd p bytes) <;>
            simp [extractRun, h, hp, isOkE]
        · cases hp : E.tarParse (E.bz2d bytes) <;>
            simp [extractRun, h, hp, isOkE]
        · simp [extractRun, h, isOkE]
        · simp [extractRun, h, isOkE]
  · intro bytes arcName p b fmt h
    obtain ⟨cont, cod⟩ := fmt
    simp [extractRun, h]
  · intro bytes arcName p b h hp
    simp [extractRun, h, hp, eerrs, efiles, eret]
  · intro bytes arcName p b h hp
    simp [extractRun, h, hp, eerrs, efiles, eret]

/-- Witness for C5 amended: a failing write during `archive` of an existing
file is caught, and a failing destination-directory creation in `extract`
propagates. -/
theorem c5_amended_witness :
    (archiveRun idExt (SrcState.file "f" [1]) "o.bz2" false false false).errs =
        [ErrKind.caught] ∧
      extractRun idExt (some [1]) "a.bz2" false false false = .error () :=
  ⟨((c5_amended Unit Unit idExt).1 (SrcState.file "f" [1]) "o.bz2" false false
      Container.single Codec.bz2 (by decide) (by decide) (by decide)).2.2,
   (c5_amended Unit Unit idExt).2.2.1 [1] "a.bz2" false false
      (Container.single, Codec.bz2) (by decide)⟩

/-! ### C1: round-trip -/

/-- `create_tar_archive` names entries exactly at the source-relative paths
the round-trip has to reproduce. -/
theorem createTarEntries_eq_sourceFiles (s : SrcState) :
    createTarEntries s = sourceFiles s := by
  cases s <;> rfl

/-- C1 counterexample: archiving the directory `d` containing the file `a`
to `o.tar.bz2` and extracting the resulting archive does not put `a` back at
its source-relative path: the `.tar.bz2` branch of `archive` (lines 161-167)
adds the tree with `arcname=src.name`, so the file comes back at `d/a`.
The external libraries are instantiated with lawful stand-ins: identity
codecs and a length-prefixed tar serializer/parser pair. -/
theorem c1_counterexample :
    roundTrip idExt (SrcState.dir "d" [(["a"], [7])]) "o.tar.bz2" "o.tar.bz2"
        false false false false = [(["d", "a"], [7])] ∧
      [(["d", "a"], [7])] ≠ sourceFiles (SrcState.dir "d" [(["a"], [7])]) := by
  constructor
  · rfl
  · decide

/-- C1 amended: under the round-trip laws of the external codec and tar
libraries, `extract ∘ archive` reproduces the source byte-for-byte with each
file at the same relative path for `.tar.zst` (files and directory trees),
and for single-file sources of the raw formats when the archive is named
`<source name> + <codec suffix>`; for `.tar.bz2` a single file round-trips
exactly, but a directory source comes back with every path prefixed by the
source root's name; a raw extraction in general names its single output file
by stripping the archive name's last suffix. -/
theorem c1_amended (σc σd : Type) (E : Ext σc σd) (p1 b1 p2 b2 : Bool) :
    (∀ src dstName arcName, src ≠ SrcState.missing →
      archiveDispatch dstName = some (Container.tar, Codec.zst) →
      extractDispatch arcName = some (Container.tar, Codec.zst) →
      decompressZstd E.zd p2 (compressWithZstd E.zc p1 (E.tarSer (createTarEntries src))) =
        E.tarSer (createTarEntries src) →
      E.tarParse (E.tarSer (createTarEntries src)) = some (createTarEntries src) →
      roundTrip E src dstName arcName p1 b1 p2 b2 = sourceFiles src) ∧
    (∀ src dstName arcName, src ≠ SrcState.missing →
      archiveDispatch dstName = some (Container.tar, Codec.bz2) →
      extractDispatch arcName = some (Container.tar, Codec.bz2) →
      E.bz2d (E.bz2c (E.tarSer (tarAddRootEntries src))) =
        E.tarSer (tarAddRootEntries src) →
      E.tarParse (E.tarSer (tarAddRootEntries src)) = some (tarAddRootEntries src) →
      roundTrip E src dstName arcName p1 b1 p2 b2 = tarAddRootEntries src) ∧
    (∀ nm c, tarAddRootEntries (SrcState.file nm c) = sourceFiles (SrcState.file nm c)) ∧
    (∀ nm files, tarAddRootEntries (SrcState.dir nm files) =
      files.map (fun e => (nm :: e.1, e.2))) ∧
    (∀ nm c dstName cod,
      archiveDispatch dstName = some (Container.single, cod) →
      extractDispatch dstName = some (Container.single, cod) →
      (cod = Codec.zst → decompressZstd E.zd p2 (compressWithZstd E.zc p1 c) = c) →
      (cod = Codec.bz2 → E.bz2d (E.bz2c c) = c) →
      roundTrip E (SrcState.file nm c) dstName dstName p1 b1 p2 b2 =
        [([pyStem dstName], c)]) ∧
    (∀ nm : String, nm.data ≠ [] →
      pyStem (nm ++ ".zst") = nm ∧ pyStem (nm ++ ".bz2") = nm) := by
  refine ⟨?_, ?_, fun nm c => rfl, fun nm files => rfl, ?_, ?_⟩
  · intro src dstName arcName h1 h2 h3 hz ht
    have hw : (archiveRun E src dstName p1 b1 true).written =
        some (compressWithZstd E.zc p1 (E.tarSer (createTarEntries src))) := by
      simp [archiveRun, h1, h2]
    simp only [roundTrip, hw]
    simp only [extractRun, h3, hz, ht, efiles]
    simp [createTarEntries_eq_sourceFiles]
  · intro src dstName arcName h1 h2 h3 hz ht
    have hw : (archiveRun E src dstName p1 b1 true).written =
        some (E.bz2c (E.tarSer (tarAddRootEntries src))) := by
      simp [archiveRun, h1, h2]
    simp only [roundTrip, hw]
    simp [extractRun, efiles, h3, hz, ht]
  · intro nm c dstName cod h2 h3 hz hb
    have h1 : SrcState.file nm c ≠ SrcState.missing := by simp
    cases cod with
    | zst =>
      have hw : (archiveRun E (SrcState.file nm c) dstName p1 b1 true).written =
          some (compressWithZstd E.zc p1 c) := by
        simp [archiveRun, h2, SrcState.isDir]
      simp only [roundTrip, hw]
      simp [extractRun, efiles, h3, hz rfl]
    | bz2 =>
      have hw : (archiveRun E (SrcState.file nm c) dstName p1 b1 true).written =
          some (E.bz2c c) := by
        simp [archiveRun, h2, SrcState.isDir, compressWithBz2]
      simp only [roundTrip, hw]
      simp [extractRun, efiles, decompressBz2, h3, hb rfl]
  · intro nm hnm
    constructor <;>
    · simp only [pyStem, String.data_append]
      simp [List.dropWhile, hnm]

/-- Witness for C1 amended, at concrete sources with the concrete
external-library instance: a directory tree through `.tar.zst`, a single
file through `.tar.bz2`, and a single file through raw `.zst` with the
canonical archive name. -/
theorem c1_amended_witness :
    roundTrip idExt (SrcState.dir "d" [(["a"], [7]), (["c", "e"], [8])])
        "b.tar.zst" "b.tar.zst" false false false false =
      sourceFiles (SrcState.dir "d" [(["a"], [7]), (["c", "e"], [8])]) ∧
    roundTrip idExt (SrcState.file "f" [1, 2]) "f.tar.bz2" "f.tar.bz2"
        false false false false = tarAddRootEntries (SrcState.file "f" [1, 2]) ∧
    roundTrip idExt (SrcState.file "f.txt" [1, 2]) "f.txt.zst" "f.txt.zst"
        false false false false = [([pyStem "f.txt.zst"], [1, 2])] ∧
    pyStem ((String.mk "f.txt".data) ++ ".zst") = String.mk "f.txt".data :=
  ⟨(c1_amended Unit Unit idExt false false false false).1
      (SrcState.dir "d" [(["a"], [7]), (["c", "e"], [8])]) "b.tar.zst" "b.tar.zst"
      (by decide) (by decide) (by decide) (by decide) (by decide),
   (c1_amended Unit Unit idExt false false false false).2.1
      (SrcState.file "f" [1, 2]) "f.tar.bz2" "f.tar.bz2"
      (by decide) (by decide) (by decide) (by decide) (by decide),
   (c1_amended Unit Unit idExt false false false false).2.2.2.2.1
      "f.txt" [1, 2] "f.txt.zst" Codec.zst
      (by decide) (by decide) (fun _ => by decide) (fun h => by cases h),
   ((c1_amended Unit Unit idExt false false false false).2.2.2.2.2
      (String.mk "f.txt".data) (by decide)).1⟩

/-! ### C4: tar entry naming -/

/-- C4 counterexample: for the directory source `d` containing the file `a`,
the tar stream the `.tar.bz2` branch writes is that of the root-prefixed
entry `d/a`, not the stream of the claimed root-free entry `a`. -/
theorem c4_counterexample :
    (archiveRun idExt (SrcState.dir "d" [(["a"], [7])]) "o.tar.bz2"
        false false true).written = some (encTar [(["d", "a"], [7])]) ∧
      encTar [(["d", "a"], [7])] ≠ encTar [(["a"], [7])] := by
  constructor
  · rfl
  · decide

/-- C4 amended: the `.tar.zst` stream is built by `create_tar_archive`: one
entry named by the base name for a single file, one entry per walked file at
its root-free source-relative path for a directory.  The `.tar.bz2` stream
is instead written by `tarfile`'s recursive `add` with
`arcname = src.name`: a single file still yields one entry named by its base
name, but a directory yields file entries carrying the root directory's
name as leading path component. -/
theorem c4_amended (σc σd : Type) (E : Ext σc σd) (p b : Bool) :
    (∀ src dstName, src ≠ SrcState.missing →
      archiveDispatch dstName = some (Container.tar, Codec.zst) →
      (archiveRun E src dstName p b true).written =
        some (compressWithZstd E.zc p (E.tarSer (createTarEntries src)))) ∧
    (∀ nm c, createTarEntries (SrcState.file nm c) = [([nm], c)]) ∧
    (∀ nm files, createTarEntries (SrcState.dir nm files) = files) ∧
    (∀ src dstName, src ≠ SrcState.missing →
      archiveDispatch dstName = some (Container.tar, Codec.bz2) →
      (archiveRun E src dstName p b true).written =
        some (E.bz2c (E.tarSer (tarAddRootEntries src)))) ∧
    (∀ nm c, tarAddRootEntries (SrcState.file nm c) = [([nm], c)]) ∧
    (∀ nm files, tarAddRootEntries (SrcState.dir nm files) =
      files.map (fun e => (nm :: e.1, e.2))) := by
  refine ⟨?_, fun nm c => rfl, fun nm files => rfl, ?_, fun nm c => rfl,
    fun nm files => rfl⟩
  · intro src dstName h1 h2
    simp [archiveRun, h1, h2]
  · intro src dstName h1 h2
    simp [archiveRun, h1, h2]

/-- Witness for C4 amended: the two tar formats applied to the same concrete
directory source. -/
theorem c4_amended_witness :
    (archiveRun idExt (SrcState.dir "d" [(["a"], [7])]) "o.tar.zst"
        false false true).written =
      some (compressWithZstd idExt.zc false
        (idExt.tarSer (createTarEntries (SrcState.dir "d" [(["a"], [7])])))) ∧
    (archiveRun idExt (SrcState.dir "d" [(["a"], [7])]) "o.tar.bz2"
        false false true).written =
      some (idExt.bz2c (idExt.tarSer (tarAddRootEntries (SrcState.dir "d" [(["a"], [7])])))) :=
  ⟨(c4_amended Unit Unit idExt false false).1 (SrcState.dir "d" [(["a"], [7])])
      "o.tar.zst" (by decide) (by decide),
   (c4_amended Unit Unit idExt false false).2.2.2.1 (SrcState.dir "d" [(["a"], [7])])
      "o.tar.bz2" (by decide) (by decide)⟩

/-! ### C6: progress monotonicity -/

theorem curNonDec_iff_chain' (l : List (Int × Int)) :
    curNonDec l = true ↔ List.Chain' (fun a b : Int × Int => a.1 ≤ b.1) l := by
  induction l with
  | nil => simp [curNonDec]
  | cons a t ih =>
    cases t with
    | nil => simp [curNonDec]
    | cons b t2 => simp [curNonDec, List.chain'_cons, ih]

theorem curNonDec_tail (a : Int × Int) (t : List (Int × Int))
    (h : curNonDec (a :: t) = true) : curNonDec t = true := by
  cases t with
  | nil => rfl
  | cons b t2 =>
    simp only [curNonDec, Bool.and_eq_true] at h
    exact h.2

/-- Splitting into chunks loses no bytes. -/
theorem flatten_chunksOf (n : Nat) (hn : 0 < n) (l : Bytes) :
    (chunksOf n l).flatten = l := by
  by_cases hl : l = []
  · subst hl
    rw [chunksOf_eq]
    simp
  · rw [chunksOf_eq, if_neg (by push_neg; exact ⟨hl, by omega⟩)]
    simp only [List.flatten_cons]
    rw [flatten_chunksOf n hn (l.drop n)]
    exact List.take_append_drop n l
termination_by l.length
decreasing_by
  have hp : 0 < l.length := List.length_pos.mpr hl
  simp [List.length_drop]
  omega

/-- The chunk-loop renderings are non-decreasing and stay at or below the
total, provided the chunks sum to at most `total - done` bytes. -/
theorem curNonDec_feedTrace (total : Nat) (htotal : 0 < total) :
    ∀ (cs : List Bytes) (done : Nat),
      done + (cs.map List.length).sum ≤ total →
      curNonDec (((done : Int), (total : Int)) ::
        (feedTrace total done cs ++ [((total : Int), (total : Int))])) = true := by
  intro cs
  induction cs with
  | nil =>
    intro done h
    simp only [List.map_nil, List.sum_nil, Nat.add_zero] at h
    simp only [feedTrace, List.nil_append, curNonDec]
    simp [h]
  | cons c cs ih =>
    intro done h
    simp only [List.map_cons, List.sum_cons] at h
    have hT : ¬ ((total : Int) ≤ 0) := by exact_mod_cast Nat.not_le.mpr htotal
    simp only [feedTrace, progTrace, hT, if_false, List.cons_append]
    simp only [curNonDec, Bool.and_eq_true, decide_eq_true_eq]
    refine ⟨by exact_mod_cast Nat.le_add_right done c.length, ?_⟩
    exact ih (done + c.length) (by omega)

theorem flatten_map_singleton {α β : Type} (l : List α) (f : α → β) :
    (l.map (fun x => [f x])).flatten = l.map f := by
  induction l <;> simp_all

theorem getLast?_cons_append_singleton {α : Type} (a x : α) (l : List α) :
    (a :: (l ++ [x])).getLast? = some x := by
  rw [show a :: (l ++ [x]) = (a :: l) ++ [x] by simp]
  exact List.getLast?_concat _

/-- C6 counterexample: a raw `.bz2` extraction with progress display
completes successfully, yet its rendered progress sequence
`(0,1), (2,2), (1,1)` is not monotonically non-decreasing in its current
count: the counter resets between the decompression phase and the final
unpacking message. -/
theorem c6_counterexample :
    extractRun idExt (some [9, 9]) "a.bz2" true false true =
        .ok ⟨[(["a"], [9, 9])], none, [(0, 1), (2, 2), (1, 1)], []⟩ ∧
      curNonDec [(0, 1), (2, 2), (1, 1)] = false := by
  constructor
  · rfl
  · decide

/-- C6 amended: progress is monotonically non-decreasing and ends at the
total *within each loop* — each codec chunk loop over nonempty data ends at
`(total, total)`, each `.tar.bz2` member loop at `(n, n)`, each `.tar.zst`
member loop at `(2n, 2n)`, and a progress-mode raw extraction's overall
trace ends at `(1, 1)` — but across phase boundaries of one operation the
current count resets, so the operation-wide sequence need not be
non-decreasing. -/
theorem c6_amended (σc σd : Type) (E : Ext σc σd) :
    (∀ data : Bytes, curNonDec (codecChunkTrace data) = true ∧
      (data ≠ [] → (codecChunkTrace data).getLast? =
        some ((data.length : Int), (data.length : Int)))) ∧
    (∀ n : Nat, curNonDec (memberTraceBz2 n) = true ∧
      (0 < n → (memberTraceBz2 n).getLast? = some ((n : Int), (n : Int)))) ∧
    (∀ n : Nat, curNonDec (memberTraceZst n) = true ∧
      (0 < n → (memberTraceZst n).getLast? =
        some (((2 * n : Nat) : Int), ((2 * n : Nat) : Int)))) ∧
    (∀ (bytes : Bytes) (arcName : String) (b : Bool) (cod : Codec),
      extractDispatch arcName = some (Container.single, cod) →
      (etrace (extractRun E (some bytes) arcName true b true)).getLast? =
        some (1, 1)) := by
  refine ⟨?_, ?_, ?_, ?_⟩
  · intro data
    by_cases hd : data = []
    · subst hd
      exact ⟨rfl, fun h => absurd rfl h⟩
    · have hL : 0 < data.length := List.length_pos.mpr hd
      have hT : ¬ ((data.length : Int) ≤ 0) := by exact_mod_cast Nat.not_le.mpr hL
      have hpt : progTrace (data.length : Int) (data.length : Int) =
          [((data.length : Int), (data.length : Int))] := by
        simp [progTrace, hT]
      have hsum : 0 + ((chunksOf 8192 data).map List.length).sum ≤ data.length := by
        have hfl := flatten_chunksOf 8192 (by norm_num) data
        have hlen : ((chunksOf 8192 data).map List.length).sum = data.length := by
          rw [← List.length_flatten, hfl]
        omega
      constructor
      · have h1 := curNonDec_feedTrace data.length hL (chunksOf 8192 data) 0 hsum
        have h2 := curNonDec_tail _ _ h1
        simpa [codecChunkTrace, hpt] using h2
      · intro _
        simp [codecChunkTrace, hpt]
  · intro n
    by_cases hn : n = 0
    · subst hn
      exact ⟨rfl, fun h => absurd h (by omega)⟩
    · have hn' : 0 < n := Nat.pos_of_ne_zero hn
      have hT : ¬ ((n : Int) ≤ 0) := by exact_mod_cast Nat.not_le.mpr hn'
      have hmb : memberTraceBz2 n =
          (List.range n).map (fun i => (((i + 1 : Nat) : Int), (n : Int))) := by
        simp only [memberTraceBz2, progTrace, hT, if_false]
        exact flatten_map_singleton _ _
      constructor
      · rw [hmb, curNonDec_iff_chain', List.chain'_map]
        cases n with
        | zero => omega
        | succ m =>
          rw [List.chain'_range_succ]
          intro k _
          simp only []
          push_cast
          omega
      · intro _
        rw [hmb]
        cases n with
        | zero => omega
        | succ m =>
          rw [List.range_succ, List.map_append]
          simp
  · intro n
    by_cases hn : n = 0
    · subst hn
      exact ⟨rfl, fun h => absurd h (by omega)⟩
    · have hn' : 0 < n := Nat.pos_of_ne_zero hn
      have hT : ¬ (((2 * n : Nat) : Int) ≤ 0) := by
        have : 0 < 2 * n := by omega
        exact_mod_cast Nat.not_le.mpr this
      have hmb : memberTraceZst n =
          (List.range n).map (fun i => (((i + 1 + n : Nat) : Int), ((2 * n : Nat) : Int))) := by
        simp only [memberTraceZst, progTrace, hT, if_false]
        exact flatten_map_singleton _ _
      constructor
      · rw [hmb, curNonDec_iff_chain', List.chain'_map]
        cases n with
        | zero => omega
        | succ m =>
          rw [List.chain'_range_succ]
          intro k _
          simp only []
          push_cast
          omega
      · intro _
        rw [hmb]
        cases n with
        | zero => omega
        | succ m =>
          rw [List.range_succ, List.map_append]
          simp
          omega
  · intro bytes arcName b cod h
    cases cod <;>
    · simp [extractRun, h, etrace, progTrace]
      exact getLast?_cons_append_singleton _ _ _

/-- Witness for C6 amended at concrete loops: the chunk trace of a one-byte
input, two-member extraction loops, and a concrete progress-mode raw
extraction. -/
theorem c6_amended_witness :
    curNonDec (codecChunkTrace [5]) = true ∧
    (codecChunkTrace [5]).getLast? = some (1, 1) ∧
    (memberTraceBz2 2).getLast? = some (2, 2) ∧
    (memberTraceZst 2).getLast? = some (4, 4) ∧
    (etrace (extractRun idExt (some [1]) "a.zst" true false true)).getLast? =
      some (1, 1) :=
  ⟨((c6_amended Unit Unit idExt).1 [5]).1,
   ((c6_amended Unit Unit idExt).1 [5]).2 (by decide),
   ((c6_amended Unit Unit idExt).2.1 2).2 (by decide),
   ((c6_amended Unit Unit idExt).2.2.1 2).2 (by decide),
   (c6_amended Unit Unit idExt).2.2.2 [1] "a.zst" false Codec.zst (by decide)⟩

end LP1
